import Mathlib

/-!
Verification development for a module-based state-container core
(store façade, module tree, dispatch engine).

The definitions below are a shallow embedding of the JavaScript sources:
`src/store.js`, `src/module/module-collection.js`, `src/util.js` and the
store-util / devtools file (`installModule`, `registerMutation`,
`registerAction`, `registerGetter`, `genericSubscribe`, ...).

Modelling conventions:
* The development build is modelled (`__DEV__ = true`), so the diagnostic
  `console.error` / `console.warn` branches are live; diagnostics are
  collected in a `log : List String` field.
* JavaScript objects used as string-keyed tables are association lists
  (`List (String × _)`): property update keeps the entry position,
  a fresh property is appended, matching object key iteration order.
* Handler closures are identified by their registration provenance
  (module path, local key); their behaviour is supplied to `commit` /
  `dispatch` as explicit interpretation functions, which is the value
  of the closure captured at registration time.
* Promises are modelled as settled outcomes (`DPromise`): the engine is
  single-threaded and the claims concern resolution values, not timing.
-/

set_option maxHeartbeats 1000000

/-- JavaScript-like values used for payloads, action results and
rejection reasons. -/
inductive JVal where
  | undef
  | num (n : Nat)
  | str (s : String)
  | arr (xs : List JVal)

/-- State-tree values: a leaf (primitive) or an object with ordered
string-keyed fields, as a JS state object. -/
inductive SVal where
  | leaf (n : Nat)
  | obj (fields : List (String × SVal))

/-- Lookup in an association list (JS property read `o[k]`): the first
entry with the key wins. -/
def assocLookup : List (String × α) → String → Option α
  | [], _ => none
  | p :: rest, k => if p.1 = k then some p.2 else assocLookup rest k

/-- Property write `o[k] = v` on a JS object: an existing key keeps its
position, a fresh key is appended. -/
def assocSet (l : List (String × α)) (k : String) (v : α) : List (String × α) :=
  if (assocLookup l k).isSome then
    l.map (fun p => if p.1 = k then (k, v) else p)
  else
    l ++ [(k, v)]

/-- Read a field of a state value; a leaf has no fields. -/
def SVal.getField : SVal → String → Option SVal
  | .leaf _, _ => none
  | .obj fs, k => assocLookup fs k

/-- Write a field of a state value.  Writing a property on a JS
primitive is a silent no-op, hence the leaf case. -/
def SVal.setField : SVal → String → SVal → SVal
  | .leaf n, _, _ => .leaf n
  | .obj fs, k, v => .obj (assocSet fs k v)

/-- `delete o[k]` on a state value. -/
def SVal.removeField : SVal → String → SVal
  | .leaf n, _ => .leaf n
  | .obj fs, k => .obj (fs.filter (fun p => ¬ p.1 = k))

/-- `getNestedState(state, path)` from the store-util source:
`path.reduce((state, key) => state[key], state)`, as an `Option` since a
missing segment yields no object. -/
def getNestedState : SVal → List String → Option SVal
  | s, [] => some s
  | s, k :: ks => (s.getField k).bind (getNestedState · ks)

/-- Apply `f` to the state value sitting at `path`; unchanged when the
path does not resolve (the source would fault there, and all uses in
the claims resolve). -/
def updateAtPath : SVal → List String → (SVal → SVal) → SVal
  | s, [], f => f s
  | .leaf n, _ :: _, _ => .leaf n
  | .obj fs, k :: ks, f =>
      .obj (fs.map (fun p => if p.1 = k then (p.1, updateAtPath p.2 ks f) else p))

/-- A declared action in a module config: either a plain function or an
object `{ handler, root? }` (the dynamic duck-typed shape). -/
inductive ActionDecl where
  | fnDecl
  | objDecl (root : Bool)
  deriving Repr, BEq, DecidableEq

/-- The `action.root` test of `installModule`: truthy only for an
object declaration with `root: true`. -/
def ActionDecl.isRoot : ActionDecl → Bool
  | .fnDecl => false
  | .objDecl r => r

/-- Raw module configuration (`{ namespaced?, state, mutations?,
actions?, getters?, modules? }`).  Handler functions are opaque to the
routing logic, so declarations are carried as their keys (plus the
`root` option for actions). -/
inductive RawModule where
  | mk (namespaced : Bool) (state : SVal)
       (mutations : List String)
       (actions : List (String × ActionDecl))
       (getters : List String)
       (modules : List (String × RawModule))

/-- Modelled from the spec: the `Module` class (src/module/module.js is
not in the sources; only its callers in `module-collection.js` and the
install logic are).  Per the spec's data model a module owns
`{ rawConfig, runtime, state, children }`; `namespaced` reads the raw
config flag, and the `forEachMutation/Action/Getter/Child` iterators
walk the raw config's declaration maps / the runtime children map. -/
inductive VModule where
  | mk (runtime : Bool) (namespaced : Bool) (state : SVal)
       (mutations : List String)
       (actions : List (String × ActionDecl))
       (getters : List String)
       (children : List (String × VModule))

def VModule.runtime : VModule → Bool
  | .mk r _ _ _ _ _ _ => r

def VModule.namespaced : VModule → Bool
  | .mk _ n _ _ _ _ _ => n

def VModule.state : VModule → SVal
  | .mk _ _ s _ _ _ _ => s

def VModule.mutations : VModule → List String
  | .mk _ _ _ m _ _ _ => m

def VModule.actions : VModule → List (String × ActionDecl)
  | .mk _ _ _ _ a _ _ => a

def VModule.getters : VModule → List String
  | .mk _ _ _ _ _ g _ => g

def VModule.children : VModule → List (String × VModule)
  | .mk _ _ _ _ _ _ c => c

/-- Modelled from the spec: `Module.getChild(key)` — child lookup in the
runtime children map. -/
def VModule.getChild (m : VModule) (k : String) : Option VModule :=
  assocLookup m.children k

/-- Modelled from the spec: `Module.hasChild(key)` — `isRegistered` is
"true iff parent exists and has a child at the final key". -/
def VModule.hasChild (m : VModule) (k : String) : Bool :=
  (m.getChild k).isSome

/-- Modelled from the spec: `Module.removeChild(key)` — detaches the
child from the runtime children map. -/
def VModule.removeChild (m : VModule) (k : String) : VModule :=
  match m with
  | .mk r n s ms as gs cs => .mk r n s ms as gs (cs.filter (fun p => ¬ p.1 = k))

/-- `ModuleCollection.get(path)`: repeated child lookup from a module.
`none` stands for the source's `undefined` / member-access fault on a
missing segment. -/
def descend : VModule → List String → Option VModule
  | m, [] => some m
  | m, k :: ks => (m.getChild k).bind (descend · ks)

/-- `ModuleCollection.getNamespace(path)` inner walk: the source holds a
cursor module and reduces over the path, appending `key + '/'` exactly
when the child at that key is flagged `namespaced`.  A missing child
(where the source would fault) stops the walk. -/
def getNamespaceGo : VModule → List String → String → String
  | _, [], ns => ns
  | m, k :: ks, ns =>
      match m.getChild k with
      | some c => getNamespaceGo c ks (ns ++ (if c.namespaced then k ++ "/" else ""))
      | none => ns

/-- `ModuleCollection.getNamespace(path)`: reduce from the root with the
empty accumulator. -/
def getNamespace (root : VModule) (path : List String) : String :=
  getNamespaceGo root path ""

/-- The tree-building part of `ModuleCollection.register`: construct a
module node from a raw config (`new VModule(rawModule, runtime)`) and
recursively register every declared nested module config under it with
the same `runtime` flag. -/
def buildModule : RawModule → Bool → VModule
  | .mk ns st ms as gs mods, runtime =>
      .mk runtime ns st ms as gs (buildModules mods runtime)
where
  /-- Children of `buildModule`, one recursive registration per declared
  nested config. -/
  buildModules : List (String × RawModule) → Bool → List (String × VModule)
  | [], _ => []
  | (k, rm) :: rest, runtime => (k, buildModule rm runtime) :: buildModules rest runtime

/-- `ModuleCollection.unregister(path)`: locate parent and child; warn
and no-op when the child is absent; refuse (no-op) when the child's
`runtime` flag is false; otherwise detach the child from the parent.
Returns the (possibly unchanged) root plus an optional warning. -/
def unregisterMC (root : VModule) (path : List String) : VModule × Option String :=
  match descend root (path.dropLast) with
  | none => (root, none)
  | some parent =>
      match path.getLast? with
      | none => (root, some "[vuex] trying to unregister module which is not registered")
      | some key =>
          match parent.getChild key with
          | none => (root, some ("[vuex] trying to unregister module '" ++ key ++ "', which is not registered"))
          | some child =>
              if !child.runtime then (root, none)
              else (removeAt root (path.dropLast) key, none)
where
  /-- Functional counterpart of mutating the located parent in place:
  rebuild the tree along `path` with the child removed at the end. -/
  removeAt : VModule → List String → String → VModule
  | m, [], key => m.removeChild key
  | m, k :: ks, key =>
      match m with
      | .mk r n s ms as gs cs =>
          .mk r n s ms as gs
            (cs.map (fun p => if p.1 = k then (p.1, removeAt p.2 ks key) else p))

/-- `ModuleCollection.isRegistered(path)`: the parent is looked up at
`path.slice(0, -1)` and, if it exists, queried for a child at the final
key.  An empty path has no final key (the source reads
`path[path.length - 1]`, which is `undefined` there), so no child can
match. -/
def isRegistered (root : VModule) (path : List String) : Bool :=
  match descend root (path.dropLast) with
  | some parent =>
      match path.getLast? with
      | some key => parent.hasChild key
      | none => false
  | none => false

/-- Provenance of a registered (wrapped) handler closure: the module
path it was installed from and its local declaration key. -/
abbrev HandlerRef := List String × String

/-- An entry of `_actionSubscribers`: an object holding optional
`before` / `after` / `error` hooks.  `objId` is the JavaScript object
identity (reference) of the entry, which is what `indexOf` compares. -/
structure ASub where
  objId : Nat
  hasBefore : Bool
  hasAfter : Bool
  hasError : Bool
  deriving Repr, DecidableEq

/-- The argument accepted by `subscribeAction`: a bare function
(identified by the function's reference id) or a hooks object. -/
inductive ActArg where
  | fnArg (fnId : Nat)
  | hooksArg (sub : ASub)
  deriving Repr, DecidableEq

/-- The store instance: `_modules.root`, `_state.data`, `_committing`,
the three routing tables (`_mutations`, `_actions`, `_wrappedGetters`),
`_modulesNamespaceMap` (modules recorded by path), the two subscriber
lists, collected diagnostics, and a fresh-object-id counter modelling
JavaScript allocation (used for the `{ before: fn }` wrapper objects
built by `subscribeAction`). -/
structure VStore where
  root : VModule
  stateData : SVal
  committing : Bool
  mutTable : List (String × List HandlerRef)
  actTable : List (String × List HandlerRef)
  getTable : List (String × HandlerRef)
  nsMap : List (String × List String)
  subscribers : List Nat
  actionSubscribers : List ASub
  log : List String
  nextId : Nat

/-- `Store._withCommit(fn)`: raise the `_committing` flag, run `fn`,
restore the previous flag value. -/
def withCommit (s : VStore) (f : VStore → VStore) : VStore :=
  let s1 := f { s with committing := true }
  { s1 with committing := s.committing }

/-- `registerMutation`: `store._mutations[type] || (store._mutations[type] = [])`
then push the wrapped handler. -/
def registerMutation (s : VStore) (type : String) (ref : HandlerRef) : VStore :=
  let entry := (assocLookup s.mutTable type).getD []
  { s with mutTable := assocSet s.mutTable type (entry ++ [ref]) }

/-- `registerAction`: append the wrapped (normalizing) handler to the
entry list for `type`. -/
def registerAction (s : VStore) (type : String) (ref : HandlerRef) : VStore :=
  let entry := (assocLookup s.actTable type).getD []
  { s with actTable := assocSet s.actTable type (entry ++ [ref]) }

/-- `registerGetter`: a duplicate key logs `[vuex] duplicate getter key`
and is skipped (the existing entry stays); otherwise the wrapped getter
is stored under `type`. -/
def registerGetter (s : VStore) (type : String) (ref : HandlerRef) : VStore :=
  if (assocLookup s.getTable type).isSome then
    { s with log := s.log ++ ["[vuex] duplicate getter key: " ++ type] }
  else
    { s with getTable := s.getTable ++ [(type, ref)] }

/-- Step 1 of `installModule`: registration of a namespaced module in
`store._modulesNamespaceMap` — a duplicate namespace logs an error and
the later module still overwrites the map entry (last writer wins). -/
def installNsMapStep (s : VStore) (ns : String) (path : List String) (namespaced : Bool) : VStore :=
  if namespaced then
    let sa :=
      if (assocLookup s.nsMap ns).isSome then
        { s with log := s.log ++ ["[vuex] duplicate namespace " ++ ns] }
      else s
    { sa with nsMap := assocSet sa.nsMap ns path }
  else s

/-- Step 2 of `installModule`: `parentState[moduleName] = module.state`
inside `_withCommit`, skipped at the root and on hot passes; an
existing field of the same name is warned about and overwritten. -/
def installStateStep (s : VStore) (path : List String) (mState : SVal) (hot : Bool) : VStore :=
  if !path.isEmpty && !hot then
    match path.getLast? with
    | some moduleName =>
        let parent := getNestedState s.stateData path.dropLast
        let sb :=
          if (parent.bind (·.getField moduleName)).isSome then
            { s with log := s.log ++ ["[vuex] state field \x22" ++ moduleName ++ "\x22 was overridden by a module with the same name"] }
          else s
        withCommit sb (fun s' =>
          { s' with stateData := updateAtPath s'.stateData path.dropLast (·.setField moduleName mState) })
    | none => s
  else s

mutual

/-- `installModule(store, rootState, path, module, hot)`.  Mirrors the
source order: namespace-map registration, state attachment (skipped at
the root and on hot passes), then mutation / action / getter
registration (`forEachMutation` / `forEachAction` / `forEachGetter`),
then recursion into the children with `path.concat(key)`.  An action
is keyed `action.root ? key : namespace + key` and its handler is
`action.handler || action`.  The local-context object built between
those steps consists of closures over `(store, namespace, path)` and
registers nothing, so it leaves no trace in this state.  `rootState`
is the same tree as `store.state` at both call sites, so the in-place
nested writes become updates of `stateData`. -/
def installModule (s : VStore) (path : List String) (m : VModule) (hot : Bool) : VStore :=
  match m with
  | .mk _ mNamespaced mState mMutations mActions mGetters mChildren =>
    let ns := getNamespace s.root path
    let s2 := installStateStep (installNsMapStep s ns path mNamespaced) path mState hot
    let s3 := mMutations.foldl (fun s k => registerMutation s (ns ++ k) (path, k)) s2
    let s4 := mActions.foldl
      (fun s ka => registerAction s (if ka.2.isRoot then ka.1 else ns ++ ka.1) (path, ka.1)) s3
    let s5 := mGetters.foldl (fun s k => registerGetter s (ns ++ k) (path, k)) s4
    installChildren s5 path mChildren hot
termination_by structural m

/-- `module.forEachChild((child, key) => installModule(store, rootState,
path.concat(key), child, hot))`. -/
def installChildren (s : VStore) (path : List String)
    (cs : List (String × VModule)) (hot : Bool) : VStore :=
  match cs with
  | [] => s
  | (k, c) :: rest =>
      installChildren (installModule s (path ++ [k]) c hot) path rest hot
termination_by structural cs

end

/-- The store constructor: build the module tree with `runtime = false`,
take `state = this._modules.root.state`, install the root module, then
`resetStoreState` (which only builds the reactive/computed layer and so
adds nothing to the fields modelled here). -/
def storeOf (options : RawModule) : VStore :=
  let root := buildModule options false
  installModule
    { root := root, stateData := root.state, committing := false,
      mutTable := [], actTable := [], getTable := [], nsMap := [],
      subscribers := [], actionSubscribers := [], log := [], nextId := 0 }
    [] root false

/-- `resetStore(store, hot)`: empty the four routing maps and reinstall
the whole tree with the same state (`hot` is `true` at its only caller
relevant here, `unregisterModule`); `resetStoreState` again contributes
nothing to the modelled fields. -/
def resetStore (s : VStore) (hot : Bool) : VStore :=
  installModule
    { s with mutTable := [], actTable := [], getTable := [], nsMap := [] }
    [] s.root hot

/-- A settled promise: the claims concern resolution values of an
engine whose handlers are already-settled in this model. -/
inductive DPromise where
  | resolved (v : JVal)
  | rejected (e : JVal)

/-- The raw return value of an action handler: a plain value or a
promise (`isPromise` distinguishes the two). -/
inductive RawRes where
  | plain (v : JVal)
  | prom (p : DPromise)

/-- The normalization in `wrappedActionHandler`:
`if (!isPromise(res)) res = Promise.resolve(res)`. -/
def normalizeRes : RawRes → DPromise
  | .plain v => .resolved v
  | .prom p => p

/-- `Promise.all` over settled promises: resolves with the values in
array order once all resolve, rejects with the first rejection. -/
def collectAll : List DPromise → Except JVal (List JVal)
  | [] => .ok []
  | .rejected e :: _ => .error e
  | .resolved v :: rest => (collectAll rest).map (v :: ·)

def promiseAll (ps : List DPromise) : DPromise :=
  match collectAll ps with
  | .ok vs => .resolved (.arr vs)
  | .error e => .rejected e

/-- Events visible to mutation subscribers during `commit`. -/
inductive MEvent where
  | ran (ref : HandlerRef) (payload : JVal)
  | notified (sub : Nat) (mutType : String) (payload : JVal) (st : SVal)

/-- Events visible to action subscribers during `dispatch`. -/
inductive AEvent where
  | before (sub : Nat) (actType : String) (payload : JVal) (st : SVal)
  | after (sub : Nat) (actType : String) (payload : JVal) (st : SVal)
  | failed (sub : Nat) (actType : String) (payload : JVal) (st : SVal) (e : JVal)

/-- One wrapped mutation handler call
`handler.call(store, local.state, payload)`: the raw handler (whose
behaviour is `hsem`) works on `local.state = getNestedState(store.state,
path)` and its in-place writes land at that path of the tree. -/
def runMutHandler (hsem : HandlerRef → SVal → JVal → SVal)
    (st : SVal) (ref : HandlerRef) (payload : JVal) : SVal :=
  updateAtPath st ref.1 (fun localState => hsem ref localState payload)

/-- `Store.commit(type, payload)` (positional form; `unifyObjectStyle`
returns string-typed positional arguments unchanged).  Unknown type:
log `unknown mutation type` and return.  Otherwise run every handler of
the entry in order inside `_withCommit`, then notify a copy
(`slice()`) of `_subscribers` with `(mutation, this.state)`.  The
returned event list records handler invocations and subscriber
notifications in execution order. -/
def Store.commit (s : VStore) (hsem : HandlerRef → SVal → JVal → SVal)
    (type : String) (payload : JVal) : VStore × List MEvent :=
  match assocLookup s.mutTable type with
  | none => ({ s with log := s.log ++ ["[vuex] unknown mutation type: " ++ type] }, [])
  | some entry =>
      let s1 := withCommit s (fun s' =>
        { s' with stateData := entry.foldl (fun st ref => runMutHandler hsem st ref payload) s'.stateData })
      (s1,
        entry.map (fun ref => MEvent.ran ref payload)
          ++ s1.subscribers.map (fun i => MEvent.notified i type payload s1.stateData))

/-- Result record of `Store.dispatch`: the value returned to the caller
(`none` is JavaScript `undefined`, `some p` a promise), the action
subscriber notifications in order, and the store (whose log may have
grown). -/
structure DispatchOut where
  res : Option DPromise
  events : List AEvent
  store : VStore

/-- `Store.dispatch(type, payload)` (positional form).  Unknown type:
log `unknown action type` and `return` — the caller receives plain
`undefined`, not a promise.  Otherwise: notify the `before` hooks of a
copy of `_actionSubscribers`; run every wrapped handler (each
normalizes its raw result, `asem`, with `Promise.resolve`); take
`Promise.all` of the results when the entry holds more than one
handler, else the single handler's result; notify `after` hooks on
resolution or `error` hooks on rejection; the outer promise settles
exactly as that result.  (An empty entry list never arises —
`registerAction` always appends — and the source would fault there.) -/
def Store.dispatch (s : VStore) (asem : HandlerRef → JVal → RawRes)
    (type : String) (payload : JVal) : DispatchOut :=
  match assocLookup s.actTable type with
  | none => ⟨none, [], { s with log := s.log ++ ["[vuex] unknown action type: " ++ type] }⟩
  | some entry =>
      let befores := (s.actionSubscribers.filter (·.hasBefore)).map
        (fun sub => AEvent.before sub.objId type payload s.stateData)
      let results := entry.map (fun ref => normalizeRes (asem ref payload))
      let result :=
        if 1 < entry.length then promiseAll results
        else results.headD (.rejected (.str "TypeError"))
      let posts :=
        match result with
        | .resolved _ => (s.actionSubscribers.filter (·.hasAfter)).map
            (fun sub => AEvent.after sub.objId type payload s.stateData)
        | .rejected e => (s.actionSubscribers.filter (·.hasError)).map
            (fun sub => AEvent.failed sub.objId type payload s.stateData e)
      ⟨some result, befores ++ posts, s⟩

/-- `genericSubscribe(fn, subs, options)`, registration half: push
(or unshift, with `options.prepend`) only when `subs.indexOf(fn) < 0`,
i.e. when the same reference is not yet present. -/
def genericSubscribe [DecidableEq α] (fn : α) (subs : List α) (prepend : Bool) : List α :=
  if fn ∈ subs then subs
  else if prepend then fn :: subs else subs ++ [fn]

/-- The closure returned by `genericSubscribe`: look up the first index
of `fn` and splice it out when found (`i > -1`). -/
def unsubscribeRun [DecidableEq α] (fn : α) : List α → List α
  | [] => []
  | x :: xs => if x = fn then xs else x :: unsubscribeRun fn xs

/-- `Store.subscribe(fn, options)` — `fn` identified by its function
reference id. -/
def Store.subscribe (s : VStore) (fn : Nat) (prepend : Bool) : VStore :=
  { s with subscribers := genericSubscribe fn s.subscribers prepend }

/-- `Store.subscribeAction(fn, options)`:
`typeof fn === 'function' ? { before: fn } : fn` — a bare function is
wrapped in a **fresh** `{ before: fn }` object (fresh reference id from
the allocation counter) before the identity-based registration. -/
def Store.subscribeAction (s : VStore) (arg : ActArg) (prepend : Bool) : VStore :=
  match arg with
  | .fnArg _ =>
      let subs : ASub := ⟨s.nextId, true, false, false⟩
      { s with
          actionSubscribers := genericSubscribe subs s.actionSubscribers prepend,
          nextId := s.nextId + 1 }
  | .hooksArg sub =>
      { s with actionSubscribers := genericSubscribe sub s.actionSubscribers prepend }

/-- `Store.replaceState(state)`: swap `_state.data` inside
`_withCommit`. -/
def Store.replaceState (s : VStore) (v : SVal) : VStore :=
  withCommit s (fun s' => { s' with stateData := v })

/-- `Store.hasModule(path)`: pure delegation to
`ModuleCollection.isRegistered`. -/
def Store.hasModule (s : VStore) (path : List String) : Bool :=
  isRegistered s.root path

/-- `Store.unregisterModule(path)`: ask the collection to unregister
(which may refuse), then unconditionally `delete` the key from the
parent state inside `_withCommit`, then `resetStore` (whose reinstall
runs with `hot = true`). -/
def Store.unregisterModule (s : VStore) (path : List String) : VStore :=
  let rw := unregisterMC s.root path
  let s := { s with root := rw.1, log := s.log ++ rw.2.toList }
  let s := withCommit s (fun s' =>
    { s' with stateData :=
        match path.getLast? with
        | some key => updateAtPath s'.stateData path.dropLast (·.removeField key)
        | none => s'.stateData })
  resetStore s true


/-! ### Decidable equality for the nested value types -/

mutual

/-- Structural decidable equality for state values. -/
def SVal.decEq : (a b : SVal) → Decidable (a = b)
  | .leaf n, .leaf n' =>
      if h : n = n' then .isTrue (by rw [h]) else .isFalse (by simp [h])
  | .leaf _, .obj _ => .isFalse (fun h => SVal.noConfusion h)
  | .obj _, .leaf _ => .isFalse (fun h => SVal.noConfusion h)
  | .obj fs, .obj fs' =>
      match SVal.decEqFields fs fs' with
      | .isTrue h => .isTrue (by rw [h])
      | .isFalse h => .isFalse (by simp [h])

/-- Structural decidable equality for field lists of state values. -/
def SVal.decEqFields : (a b : List (String × SVal)) → Decidable (a = b)
  | [], [] => .isTrue rfl
  | [], _ :: _ => .isFalse (fun h => List.noConfusion h)
  | _ :: _, [] => .isFalse (fun h => List.noConfusion h)
  | (k, v) :: rest, (k', v') :: rest' =>
      if h1 : k = k' then
        match SVal.decEq v v' with
        | .isTrue h2 =>
            match SVal.decEqFields rest rest' with
            | .isTrue h3 => .isTrue (by rw [h1, h2, h3])
            | .isFalse h3 => .isFalse (by simp [h3])
        | .isFalse h2 => .isFalse (by simp [h2])
      else .isFalse (by simp [h1])

end

instance : DecidableEq SVal := SVal.decEq

mutual

/-- Structural decidable equality for JS values. -/
def JVal.decEq : (a b : JVal) → Decidable (a = b)
  | .undef, .undef => .isTrue rfl
  | .num n, .num n' =>
      if h : n = n' then .isTrue (by rw [h]) else .isFalse (by simp [h])
  | .str s, .str s' =>
      if h : s = s' then .isTrue (by rw [h]) else .isFalse (by simp [h])
  | .arr xs, .arr xs' =>
      match JVal.decEqList xs xs' with
      | .isTrue h => .isTrue (by rw [h])
      | .isFalse h => .isFalse (by simp [h])
  | .undef, .num _ => .isFalse (fun h => JVal.noConfusion h)
  | .undef, .str _ => .isFalse (fun h => JVal.noConfusion h)
  | .undef, .arr _ => .isFalse (fun h => JVal.noConfusion h)
  | .num _, .undef => .isFalse (fun h => JVal.noConfusion h)
  | .num _, .str _ => .isFalse (fun h => JVal.noConfusion h)
  | .num _, .arr _ => .isFalse (fun h => JVal.noConfusion h)
  | .str _, .undef => .isFalse (fun h => JVal.noConfusion h)
  | .str _, .num _ => .isFalse (fun h => JVal.noConfusion h)
  | .str _, .arr _ => .isFalse (fun h => JVal.noConfusion h)
  | .arr _, .undef => .isFalse (fun h => JVal.noConfusion h)
  | .arr _, .num _ => .isFalse (fun h => JVal.noConfusion h)
  | .arr _, .str _ => .isFalse (fun h => JVal.noConfusion h)

/-- Structural decidable equality for lists of JS values. -/
def JVal.decEqList : (a b : List JVal) → Decidable (a = b)
  | [], [] => .isTrue rfl
  | [], _ :: _ => .isFalse (fun h => List.noConfusion h)
  | _ :: _, [] => .isFalse (fun h => List.noConfusion h)
  | v :: rest, v' :: rest' =>
      match JVal.decEq v v' with
      | .isTrue h2 =>
          match JVal.decEqList rest rest' with
          | .isTrue h3 => .isTrue (by rw [h2, h3])
          | .isFalse h3 => .isFalse (by simp [h3])
      | .isFalse h2 => .isFalse (by simp [h2])

end

instance : DecidableEq JVal := JVal.decEq

mutual

/-- Structural decidable equality for module-tree nodes. -/
def VModule.decEq : (a b : VModule) → Decidable (a = b)
  | .mk r n st ms as gs cs, .mk r' n' st' ms' as' gs' cs' =>
      if h1 : r = r' then
        if h2 : n = n' then
          if h3 : st = st' then
            if h4 : ms = ms' then
              if h5 : as = as' then
                if h6 : gs = gs' then
                  match VModule.decEqChildren cs cs' with
                  | .isTrue h7 => .isTrue (by rw [h1, h2, h3, h4, h5, h6, h7])
                  | .isFalse h7 => .isFalse (by simp [h7])
                else .isFalse (by simp [h6])
              else .isFalse (by simp [h5])
            else .isFalse (by simp [h4])
          else .isFalse (by simp [h3])
        else .isFalse (by simp [h2])
      else .isFalse (by simp [h1])

/-- Structural decidable equality for children lists. -/
def VModule.decEqChildren : (a b : List (String × VModule)) → Decidable (a = b)
  | [], [] => .isTrue rfl
  | [], _ :: _ => .isFalse (fun h => List.noConfusion h)
  | _ :: _, [] => .isFalse (fun h => List.noConfusion h)
  | (k, v) :: rest, (k', v') :: rest' =>
      if h1 : k = k' then
        match VModule.decEq v v' with
        | .isTrue h2 =>
            match VModule.decEqChildren rest rest' with
            | .isTrue h3 => .isTrue (by rw [h1, h2, h3])
            | .isFalse h3 => .isFalse (by simp [h3])
        | .isFalse h2 => .isFalse (by simp [h2])
      else .isFalse (by simp [h1])

end

instance : DecidableEq VModule := VModule.decEq

deriving instance DecidableEq for MEvent
deriving instance DecidableEq for AEvent
deriving instance DecidableEq for DPromise
deriving instance DecidableEq for RawRes
deriving instance DecidableEq for VStore

/-! ### Concrete stores used by witnesses and counterexamples -/

/-- A minimal root config: no declarations at all. -/
def cfgEmpty : RawModule := .mk false (.leaf 0) [] [] [] []

/-- Root config with one mutation `inc` and a numeric field. -/
def cfgInc : RawModule := .mk false (.obj [("n", .leaf 0)]) ["inc"] [] [] []

/-- A mutation-handler interpretation that replaces the local state by
the constant `42`. -/
def hsemConst : HandlerRef → SVal → JVal → SVal := fun _ _ _ => SVal.leaf 42

/-- An action interpretation where every handler returns the plain
value `undefined`. -/
def asemConst : HandlerRef → JVal → RawRes := fun _ _ => RawRes.plain JVal.undef

/-- Two non-namespaced modules that both declare the action type
`shared` (the spec's aggregation scenario). -/
def cfgShared : RawModule :=
  .mk false (.obj [])
    [] [] []
    [("m1", .mk false (.leaf 1) [] [("shared", .fnDecl)] [] []),
     ("m2", .mk false (.leaf 2) [] [("shared", .fnDecl)] [] [])]

/-- Interpretation for `cfgShared`: module `m1`'s handler returns `1`,
module `m2`'s returns `2`, both as plain (non-promise) values. -/
def asemShared : HandlerRef → JVal → RawRes :=
  fun ref _ => RawRes.plain (JVal.num (if ref.1 = ["m1"] then 1 else 2))

/-- A root getter `x`, and a non-namespaced child module declaring
getters `x` (a duplicate) and `y`. -/
def cfgDupGetter : RawModule :=
  .mk false (.obj [])
    [] [] ["x"]
    [("m", .mk false (.leaf 0) [] [] ["x", "y"] [])]

/-- A store-construction-time (static) child module `a` with leaf
state `7` under a root with object state. -/
def cfgStatic : RawModule :=
  .mk false (.obj [])
    [] [] []
    [("a", .mk false (.leaf 7) [] [] [] [])]

/-- A wrapped handler with provenance `ref` is registered in a routing
table under `key`. -/
def handlerRegistered (tbl : List (String × List HandlerRef)) (key : String)
    (ref : HandlerRef) : Prop :=
  ∃ entry, assocLookup tbl key = some entry ∧ ref ∈ entry

/-- The spec's description of a namespace: the concatenation, along the
path from the root, of `key + '/'` for every module flagged
`namespaced` (independent recursion used to cross-check
`getNamespace`). -/
def specNamespace : VModule → List String → String
  | _, [] => ""
  | m, k :: ks =>
      match m.getChild k with
      | some c => (if c.namespaced then k ++ "/" else "") ++ specNamespace c ks
      | none => ""

/-- Namespaced grandchild module with a mutation. -/
def rawB : RawModule := .mk true (.leaf 0) ["m2"] [] [] []

/-- Namespaced child module with a mutation, a plain action, a
`root: true` action, a getter and a nested namespaced child. -/
def rawA : RawModule :=
  .mk true (.obj []) ["m1"] [("na", .fnDecl), ("ra", .objDecl true)] ["g1"] [("b", rawB)]

/-- Root config holding the namespaced child `a`. -/
def cfgNs : RawModule := .mk false (.obj []) ["rootMut"] [] [] [("a", rawA)]

/-! ### C10, C7, C4, C1 -/

/-- C10: `hasModule` (and `ModuleCollection.isRegistered`) on the empty
path returns `false` for every store and module tree, although the
root module always exists — the root is never reported as a registered
module. -/
theorem hasModule_empty_path_false :
    (∀ s : VStore, Store.hasModule s [] = false)
      ∧ (∀ root : VModule, isRegistered root [] = false) :=
  ⟨fun _ => rfl, fun _ => rfl⟩

/-- C7: `replaceState(s)` swaps exactly the root state: reading the
store state afterwards returns the very value (hence a value deep-equal
to it), and nothing else of the store — module tree, the three routing
tables, namespace map, subscriber lists, log — changes, i.e. neither
module installation nor the derived-value reset is re-run. -/
theorem replaceState_roundtrip (s : VStore) (v : SVal) :
    (Store.replaceState s v).stateData = v
      ∧ Store.replaceState s v = { s with stateData := v } :=
  ⟨rfl, rfl⟩

/-- C4: committing a type with no entry in `_mutations` only logs the
unknown-mutation diagnostic and returns: the state (and every other
store field) is unchanged, no handler runs and no subscriber is
notified (the event trace is empty), and no error reaches the caller
(the function returns normally). -/
theorem commit_unknown_type_noop (s : VStore) (hsem : HandlerRef → SVal → JVal → SVal)
    (type : String) (payload : JVal)
    (he : assocLookup s.mutTable type = none) :
    Store.commit s hsem type payload
        = ({ s with log := s.log ++ ["[vuex] unknown mutation type: " ++ type] }, [])
      ∧ (Store.commit s hsem type payload).1.stateData = s.stateData
      ∧ (Store.commit s hsem type payload).2 = [] := by
  simp [Store.commit, he]

/-- C4 witness: a store with no registered mutations. -/
theorem commit_unknown_type_noop_witness :
    assocLookup (storeOf cfgEmpty).mutTable "nope" = none
      ∧ (Store.commit (storeOf cfgEmpty) hsemConst "nope" JVal.undef
            = ({ storeOf cfgEmpty with log := (storeOf cfgEmpty).log
                  ++ ["[vuex] unknown mutation type: " ++ "nope"] }, [])
          ∧ (Store.commit (storeOf cfgEmpty) hsemConst "nope" JVal.undef).1.stateData
              = (storeOf cfgEmpty).stateData
          ∧ (Store.commit (storeOf cfgEmpty) hsemConst "nope" JVal.undef).2 = []) :=
  ⟨by decide, commit_unknown_type_noop (storeOf cfgEmpty) hsemConst "nope" JVal.undef (by decide)⟩

/-- C1: for a registered mutation type, `commit` produces exactly the
trace `handler runs (one per registered handler, in registration
order) followed by subscriber notifications`: every handler of the
entry runs exactly once, in order, and every notification carries the
mutation `{type, payload}` together with the state reached after *all*
handlers completed; the final store state is that fold.  The whole
trace is produced by the single synchronous call. -/
theorem commit_trace (s : VStore) (hsem : HandlerRef → SVal → JVal → SVal)
    (type : String) (payload : JVal) (entry : List HandlerRef)
    (he : assocLookup s.mutTable type = some entry) :
    (Store.commit s hsem type payload).2
        = entry.map (fun ref => MEvent.ran ref payload)
          ++ s.subscribers.map (fun i => MEvent.notified i type payload
               (entry.foldl (fun st ref => runMutHandler hsem st ref payload) s.stateData))
      ∧ (Store.commit s hsem type payload).1.stateData
          = entry.foldl (fun st ref => runMutHandler hsem st ref payload) s.stateData := by
  simp [Store.commit, he, withCommit]

/-- C1 witness: a one-mutation store with one subscriber; the handler
entry is looked up concretely and the trace shape follows. -/
theorem commit_trace_witness :
    assocLookup (Store.subscribe (storeOf cfgInc) 7 false).mutTable "inc"
        = some [([], "inc")]
      ∧ (Store.commit (Store.subscribe (storeOf cfgInc) 7 false) hsemConst "inc" (JVal.num 3)).2
        = [MEvent.ran ([], "inc") (JVal.num 3),
           MEvent.notified 7 "inc" (JVal.num 3) (SVal.leaf 42)] := by
  refine ⟨by decide, ?_⟩
  have h := (commit_trace (Store.subscribe (storeOf cfgInc) 7 false) hsemConst
    "inc" (JVal.num 3) [([], "inc")] (by decide)).1
  exact h.trans (by decide)

/-! ### C5 and C3: dispatch -/

/-- `collectAll` on a list of already-resolved promises keeps all the
values in order. -/
theorem collectAll_map_resolved (vs : List JVal) :
    collectAll (vs.map DPromise.resolved) = .ok vs := by
  induction vs with
  | nil => rfl
  | cons v rest ih => simp [collectAll, ih, Except.map]

/-- `collectAll` succeeds only when every promise in the list is
resolved. -/
theorem collectAll_ok_iff (ps : List DPromise) (vs : List JVal) :
    collectAll ps = .ok vs → ps = vs.map DPromise.resolved := by
  induction ps generalizing vs with
  | nil => intro h; cases h; rfl
  | cons p rest ih =>
      cases p with
      | resolved v =>
          intro h
          simp only [collectAll] at h
          cases hr : collectAll rest with
          | ok us => rw [hr] at h; cases h; simp [ih us hr]
          | error e => rw [hr] at h; cases h
      | rejected e => intro h; cases h

/-- C5 (amended): dispatching a type with no entry in `_actions` logs
the unknown-action diagnostic and returns plain `undefined` to the
caller — **not** a promise — without notifying any action subscriber
and without throwing (the function returns normally, with only the log
grown). -/
theorem dispatch_unknown_type (s : VStore) (asem : HandlerRef → JVal → RawRes)
    (type : String) (payload : JVal)
    (he : assocLookup s.actTable type = none) :
    Store.dispatch s asem type payload
        = ⟨none, [], { s with log := s.log ++ ["[vuex] unknown action type: " ++ type] }⟩
      ∧ (Store.dispatch s asem type payload).res = none
      ∧ (Store.dispatch s asem type payload).events = [] := by
  simp [Store.dispatch, he]

/-- C5 witness for the amended claim. -/
theorem dispatch_unknown_type_witness :
    assocLookup (storeOf cfgEmpty).actTable "nope" = none
      ∧ (Store.dispatch (storeOf cfgEmpty) asemConst "nope" JVal.undef).res = none
      ∧ (Store.dispatch (storeOf cfgEmpty) asemConst "nope" JVal.undef).events = [] :=
  ⟨by decide,
   (dispatch_unknown_type (storeOf cfgEmpty) asemConst "nope" JVal.undef (by decide)).2⟩

/-- C5 counterexample to the claim as stated: on an unknown action type
the caller receives JavaScript `undefined` (`none`), which is not an
async result at all — in particular not one that resolves to
`undefined`. -/
theorem dispatch_unknown_type_counterexample :
    (Store.dispatch (storeOf cfgEmpty) asemConst "nope" JVal.undef).res = none
      ∧ (Store.dispatch (storeOf cfgEmpty) asemConst "nope" JVal.undef).res
          ≠ some (DPromise.resolved JVal.undef) := by
  decide

/-- C3: for a registered action type, (i) when every wrapped handler's
normalized result resolves, a multi-handler entry makes `dispatch`
resolve with exactly the list of the handlers' values in registration
order, while a single-handler entry makes it resolve with that
handler's value alone (not wrapped in a list); (ii) with several
handlers, `dispatch` can only resolve once **all** handlers have
resolved (its resolution value forces every entry of the `Promise.all`
input to be resolved); (iii) a raw handler returning a plain value is
normalized into an async result (`Promise.resolve`). -/
theorem dispatch_aggregation (s : VStore) (asem : HandlerRef → JVal → RawRes)
    (type : String) (payload : JVal) (entry : List HandlerRef)
    (he : assocLookup s.actTable type = some entry) :
    (∀ vs : List JVal,
        entry.map (fun ref => normalizeRes (asem ref payload)) = vs.map DPromise.resolved →
          (1 < entry.length →
            (Store.dispatch s asem type payload).res
              = some (DPromise.resolved (JVal.arr vs)))
          ∧ (∀ v, vs = [v] →
              (Store.dispatch s asem type payload).res = some (DPromise.resolved v)))
      ∧ (1 < entry.length → ∀ w,
          (Store.dispatch s asem type payload).res = some (DPromise.resolved w) →
            ∃ vs, entry.map (fun ref => normalizeRes (asem ref payload))
                    = vs.map DPromise.resolved ∧ w = JVal.arr vs)
      ∧ (∀ w, normalizeRes (RawRes.plain w) = DPromise.resolved w) := by
  refine ⟨?_, ?_, fun _ => rfl⟩
  · intro vs hvs
    constructor
    · intro hlen
      simp [Store.dispatch, he, hlen, promiseAll, hvs, collectAll_map_resolved]
    · intro v hv
      subst hv
      have hlen : entry.length = 1 := by
        have := congrArg List.length hvs
        simpa using this
      have hnot : ¬ 1 < entry.length := by omega
      simp [Store.dispatch, he, hnot, hvs]
  · intro hlen w hw
    simp only [Store.dispatch, he, hlen, if_pos] at hw
    cases hco : collectAll (entry.map (fun ref => normalizeRes (asem ref payload))) with
    | ok us =>
        refine ⟨us, collectAll_ok_iff _ _ hco, ?_⟩
        simp [promiseAll, hco] at hw
        exact hw.symm
    | error e => simp [promiseAll, hco] at hw

/-- C3 witness: the spec scenario — two modules register action type
`shared`; dispatch aggregates both results, in order. -/
theorem dispatch_aggregation_witness :
    assocLookup (storeOf cfgShared).actTable "shared"
        = some [(["m1"], "shared"), (["m2"], "shared")]
      ∧ (Store.dispatch (storeOf cfgShared) asemShared "shared" JVal.undef).res
          = some (DPromise.resolved (JVal.arr [JVal.num 1, JVal.num 2])) := by
  refine ⟨by decide, ?_⟩
  exact ((dispatch_aggregation (storeOf cfgShared) asemShared "shared" JVal.undef
      [(["m1"], "shared"), (["m2"], "shared")] (by decide)).1
      [JVal.num 1, JVal.num 2] (by decide)).1 (by decide)

/-! ### C8: subscriber registration and unsubscription -/

/-- The function just registered is always a member of the resulting
subscriber list. -/
theorem mem_genericSubscribe [DecidableEq α] (fn : α) (subs : List α) (p : Bool) :
    fn ∈ genericSubscribe fn subs p := by
  by_cases h : fn ∈ subs <;> cases p <;> simp [genericSubscribe, h]

/-- Registering a reference that is already present is a no-op. -/
theorem genericSubscribe_mem [DecidableEq α] (fn : α) (subs : List α) (p : Bool)
    (h : fn ∈ subs) : genericSubscribe fn subs p = subs := by
  simp [genericSubscribe, h]

/-- Anything in the list after a registration was either just added or
already present. -/
theorem mem_genericSubscribe_elim [DecidableEq α] (x fn : α) (subs : List α) (p : Bool)
    (h : x ∈ genericSubscribe fn subs p) : x = fn ∨ x ∈ subs := by
  by_cases hm : fn ∈ subs <;> cases p <;> simp [genericSubscribe, hm] at h <;> tauto

/-- The unsubscribe closure is the identity when the reference is
absent (`indexOf` returns `-1`). -/
theorem unsubscribeRun_not_mem [DecidableEq α] (fn : α) (subs : List α)
    (h : fn ∉ subs) : unsubscribeRun fn subs = subs := by
  induction subs with
  | nil => rfl
  | cons x xs ih =>
      simp only [List.mem_cons, not_or] at h
      simp [unsubscribeRun, Ne.symm h.1, ih h.2]

/-- After one unsubscription of a reference present at most once, the
reference is gone. -/
theorem not_mem_unsubscribeRun [DecidableEq α] (fn : α) (subs : List α)
    (h : subs.count fn ≤ 1) : fn ∉ unsubscribeRun fn subs := by
  induction subs with
  | nil => simp [unsubscribeRun]
  | cons x xs ih =>
      by_cases hx : x = fn
      · subst hx
        rw [List.count_cons_self] at h
        have : xs.count x = 0 := by omega
        simpa [unsubscribeRun] using (List.count_eq_zero.mp this)
      · rw [List.count_cons_of_ne (by simpa using (Ne.symm hx)) ] at h
        simp [unsubscribeRun, hx, ih h, Ne.symm hx]

/-- Registering a fresh reference grows the list by exactly one. -/
theorem genericSubscribe_fresh_length [DecidableEq α] (fn : α) (subs : List α) (p : Bool)
    (h : fn ∉ subs) : (genericSubscribe fn subs p).length = subs.length + 1 := by
  cases p <;> simp [genericSubscribe, h]

/-- C8 (amended): `subscribe` deduplicates by reference — adding the
same function twice registers it once; likewise `subscribeAction` when
given the *same hooks object* twice; the unsubscribe closure is
idempotent (a second run on a list holding the reference at most once
changes nothing).  But `subscribeAction` applied twice to the same
bare *function* wraps it in two fresh `{ before: fn }` objects and
registers **two** entries (no deduplication), provided the allocation
counter dominates the existing object ids (always true for stores
built by the constructor). -/
theorem subscribe_dedup_and_unsubscribe_idem (s : VStore) (fn f : Nat) (hook : ASub)
    (p p' : Bool) (subs : List Nat)
    (hcount : subs.count fn ≤ 1)
    (hfresh : ∀ sub ∈ s.actionSubscribers, sub.objId < s.nextId) :
    Store.subscribe (Store.subscribe s fn p) fn p' = Store.subscribe s fn p
      ∧ Store.subscribeAction (Store.subscribeAction s (.hooksArg hook) p) (.hooksArg hook) p'
          = Store.subscribeAction s (.hooksArg hook) p
      ∧ unsubscribeRun fn (unsubscribeRun fn subs) = unsubscribeRun fn subs
      ∧ (Store.subscribeAction (Store.subscribeAction s (.fnArg f) p) (.fnArg f) p').actionSubscribers.length
          = s.actionSubscribers.length + 2 := by
  refine ⟨?_, ?_, ?_, ?_⟩
  · simp [Store.subscribe,
      genericSubscribe_mem fn _ p' (mem_genericSubscribe fn s.subscribers p)]
  · simp [Store.subscribeAction,
      genericSubscribe_mem hook _ p' (mem_genericSubscribe hook s.actionSubscribers p)]
  · exact unsubscribeRun_not_mem fn _ (not_mem_unsubscribeRun fn subs hcount)
  · have h1 : (⟨s.nextId, true, false, false⟩ : ASub) ∉ s.actionSubscribers := by
      intro hmem
      have := hfresh _ hmem
      simp at this
    have h2 : (⟨s.nextId + 1, true, false, false⟩ : ASub)
        ∉ genericSubscribe (⟨s.nextId, true, false, false⟩ : ASub) s.actionSubscribers p := by
      intro hmem
      rcases mem_genericSubscribe_elim _ _ _ _ hmem with hmem | hmem
      · simp at hmem
      · have := hfresh _ hmem
        simp at this
    simp only [Store.subscribeAction]
    rw [genericSubscribe_fresh_length _ _ _ h2,
        genericSubscribe_fresh_length _ _ _ h1]

/-- C8 witness for the amended claim, on a constructor-built store. -/
theorem subscribe_dedup_and_unsubscribe_idem_witness :
    ([3].count 4 ≤ 1)
      ∧ (∀ sub ∈ (storeOf cfgEmpty).actionSubscribers, sub.objId < (storeOf cfgEmpty).nextId)
      ∧ Store.subscribe (Store.subscribe (storeOf cfgEmpty) 4 false) 4 true
          = Store.subscribe (storeOf cfgEmpty) 4 false
      ∧ unsubscribeRun 4 (unsubscribeRun 4 [3]) = unsubscribeRun 4 [3]
      ∧ (Store.subscribeAction (Store.subscribeAction (storeOf cfgEmpty) (.fnArg 9) false)
            (.fnArg 9) true).actionSubscribers.length
          = (storeOf cfgEmpty).actionSubscribers.length + 2 := by
  have h := subscribe_dedup_and_unsubscribe_idem (storeOf cfgEmpty) 4 9
    ⟨2, true, true, true⟩ false true [3] (by decide) (by decide)
  exact ⟨by decide, by decide, h.1, h.2.2.1, h.2.2.2⟩

/-- C8 counterexample to the claim as stated: passing the same function
reference (id `5`) to `subscribeAction` twice registers **two**
subscriber entries — the wrapper objects are distinct — so the second
call is not a no-op. -/
theorem subscribeAction_fn_no_dedup_counterexample :
    (Store.subscribeAction (Store.subscribeAction (storeOf cfgEmpty) (.fnArg 5) false)
        (.fnArg 5) false).actionSubscribers
        = [⟨0, true, false, false⟩, ⟨1, true, false, false⟩]
      ∧ (Store.subscribeAction (Store.subscribeAction (storeOf cfgEmpty) (.fnArg 5) false)
          (.fnArg 5) false).actionSubscribers
          ≠ (Store.subscribeAction (storeOf cfgEmpty) (.fnArg 5) false).actionSubscribers := by
  decide

/-! ### C9: duplicate getter keys -/

/-- C9 (amended): registering a getter under an already-claimed key
logs the duplicate-getter diagnostic and is skipped: the table is
unchanged, so the first-registered getter remains; the condition is
non-fatal — the function returns normally and installation continues
with the remaining getters. -/
theorem registerGetter_duplicate (s : VStore) (type : String) (ref old : HandlerRef)
    (hd : assocLookup s.getTable type = some old) :
    registerGetter s type ref
        = { s with log := s.log ++ ["[vuex] duplicate getter key: " ++ type] }
      ∧ assocLookup (registerGetter s type ref).getTable type = some old := by
  have hs : (assocLookup s.getTable type).isSome := by simp [hd]
  constructor
  · simp [registerGetter, hs]
  · simp [registerGetter, hs, hd]

/-- C9 witness: concrete duplicate registration (the store built from
`cfgDupGetter` just before the child's `x` is skipped). -/
theorem registerGetter_duplicate_witness :
    assocLookup (storeOf cfgDupGetter).getTable "x" = some ([], "x")
      ∧ (registerGetter (storeOf cfgDupGetter) "x" (["m2"], "x")
            = { storeOf cfgDupGetter with log := (storeOf cfgDupGetter).log
                ++ ["[vuex] duplicate getter key: " ++ "x"] }
          ∧ assocLookup (registerGetter (storeOf cfgDupGetter) "x" (["m2"], "x")).getTable "x"
              = some ([], "x")) :=
  ⟨by decide, registerGetter_duplicate (storeOf cfgDupGetter) "x" (["m2"], "x") ([], "x") (by decide)⟩

/-- C9 counterexample to the claim as stated (fatal, fails fast): in
`cfgDupGetter` the child's getter `x` collides with the root's; the
collision merely logs — installation does not abort, the child's
subsequent getter `y` is still registered — and the first `x` remains
in the table. -/
theorem registerGetter_duplicate_counterexample :
    assocLookup (storeOf cfgDupGetter).getTable "x" = some ([], "x")
      ∧ assocLookup (storeOf cfgDupGetter).getTable "y" = some (["m"], "y")
      ∧ (storeOf cfgDupGetter).log = ["[vuex] duplicate getter key: " ++ "x"] := by
  decide

/-! ### Frame lemmas for the install walk -/

/-- A fold preserves any projection each step preserves. -/
theorem foldl_proj {γ β : Type} (g : VStore → γ) (f : VStore → β → VStore)
    (hf : ∀ s b, g (f s b) = g s) :
    ∀ (l : List β) (s : VStore), g (l.foldl f s) = g s := by
  intro l
  induction l with
  | nil => intro s; rfl
  | cons b rest ih => intro s; rw [List.foldl_cons, ih, hf]

/-- `registerMutation` touches only the mutation table. -/
theorem registerMutation_frame (s : VStore) (t : String) (r : HandlerRef) :
    (registerMutation s t r).root = s.root
      ∧ (registerMutation s t r).stateData = s.stateData
      ∧ (registerMutation s t r).committing = s.committing
      ∧ (registerMutation s t r).actTable = s.actTable
      ∧ (registerMutation s t r).getTable = s.getTable :=
  ⟨rfl, rfl, rfl, rfl, rfl⟩

/-- `registerAction` touches only the action table. -/
theorem registerAction_frame (s : VStore) (t : String) (r : HandlerRef) :
    (registerAction s t r).root = s.root
      ∧ (registerAction s t r).stateData = s.stateData
      ∧ (registerAction s t r).committing = s.committing
      ∧ (registerAction s t r).mutTable = s.mutTable
      ∧ (registerAction s t r).getTable = s.getTable :=
  ⟨rfl, rfl, rfl, rfl, rfl⟩

/-- `registerGetter` touches only the getter table and the log. -/
theorem registerGetter_frame (s : VStore) (t : String) (r : HandlerRef) :
    (registerGetter s t r).root = s.root
      ∧ (registerGetter s t r).stateData = s.stateData
      ∧ (registerGetter s t r).committing = s.committing
      ∧ (registerGetter s t r).mutTable = s.mutTable
      ∧ (registerGetter s t r).actTable = s.actTable := by
  unfold registerGetter
  split <;> exact ⟨rfl, rfl, rfl, rfl, rfl⟩

/-- The namespace-map step touches only `nsMap` and the log. -/
theorem installNsMapStep_frame (s : VStore) (ns : String) (path : List String) (b : Bool) :
    (installNsMapStep s ns path b).root = s.root
      ∧ (installNsMapStep s ns path b).stateData = s.stateData
      ∧ (installNsMapStep s ns path b).committing = s.committing
      ∧ (installNsMapStep s ns path b).mutTable = s.mutTable
      ∧ (installNsMapStep s ns path b).actTable = s.actTable
      ∧ (installNsMapStep s ns path b).getTable = s.getTable := by
  unfold installNsMapStep
  split
  · split <;> exact ⟨rfl, rfl, rfl, rfl, rfl, rfl⟩
  · exact ⟨rfl, rfl, rfl, rfl, rfl, rfl⟩

/-- The state-attachment step touches only `stateData` and the log,
and not even `stateData` on a hot pass. -/
theorem installStateStep_frame (s : VStore) (path : List String) (st : SVal) (hot : Bool) :
    (installStateStep s path st hot).root = s.root
      ∧ (installStateStep s path st hot).committing = s.committing
      ∧ (installStateStep s path st hot).mutTable = s.mutTable
      ∧ (installStateStep s path st hot).actTable = s.actTable
      ∧ (installStateStep s path st hot).getTable = s.getTable
      ∧ (hot = true → (installStateStep s path st hot).stateData = s.stateData) := by
  unfold installStateStep
  split
  · rename_i hcond
    split
    · dsimp only [withCommit]
      split <;> refine ⟨rfl, rfl, rfl, rfl, rfl, fun hh => ?_⟩ <;>
        (subst hh; simp at hcond)
    · exact ⟨rfl, rfl, rfl, rfl, rfl, fun _ => rfl⟩
  · exact ⟨rfl, rfl, rfl, rfl, rfl, fun _ => rfl⟩

mutual

/-- Installing a module never changes the module tree or the committing
flag, and a hot pass never changes the state tree. -/
theorem installModule_frame (s : VStore) (path : List String) (m : VModule) (hot : Bool) :
    (installModule s path m hot).root = s.root
      ∧ (installModule s path m hot).committing = s.committing
      ∧ (hot = true → (installModule s path m hot).stateData = s.stateData) := by
  cases m with
  | mk r n st ms as gs cs =>
      simp only [installModule]
      refine ⟨?_, ?_, ?_⟩
      · rw [(installChildren_frame _ path cs hot).1,
          foldl_proj VStore.root _ (fun s b => (registerGetter_frame s _ _).1),
          foldl_proj VStore.root _ (fun s b => (registerAction_frame s _ _).1),
          foldl_proj VStore.root _ (fun s b => (registerMutation_frame s _ _).1),
          (installStateStep_frame _ _ _ _).1, (installNsMapStep_frame _ _ _ _).1]
      · rw [(installChildren_frame _ path cs hot).2.1,
          foldl_proj VStore.committing _ (fun s b => (registerGetter_frame s _ _).2.2.1),
          foldl_proj VStore.committing _ (fun s b => (registerAction_frame s _ _).2.2.1),
          foldl_proj VStore.committing _ (fun s b => (registerMutation_frame s _ _).2.2.1),
          (installStateStep_frame _ _ _ _).2.1, (installNsMapStep_frame _ _ _ _).2.2.1]
      · intro hh
        rw [(installChildren_frame _ path cs hot).2.2 hh,
          foldl_proj VStore.stateData _ (fun s b => (registerGetter_frame s _ _).2.1),
          foldl_proj VStore.stateData _ (fun s b => (registerAction_frame s _ _).2.1),
          foldl_proj VStore.stateData _ (fun s b => (registerMutation_frame s _ _).2.1),
          (installStateStep_frame _ _ _ _).2.2.2.2.2 hh, (installNsMapStep_frame _ _ _ _).2.1]
termination_by structural m

/-- Child installation never changes the module tree or the committing
flag, and a hot pass never changes the state tree. -/
theorem installChildren_frame (s : VStore) (path : List String)
    (cs : List (String × VModule)) (hot : Bool) :
    (installChildren s path cs hot).root = s.root
      ∧ (installChildren s path cs hot).committing = s.committing
      ∧ (hot = true → (installChildren s path cs hot).stateData = s.stateData) := by
  match cs with
  | [] => exact ⟨rfl, rfl, fun _ => rfl⟩
  | (k, c) :: rest =>
      have h1 := installModule_frame s (path ++ [k]) c hot
      have h2 := installChildren_frame (installModule s (path ++ [k]) c hot) path rest hot
      simp only [installChildren]
      exact ⟨h2.1.trans h1.1, h2.2.1.trans h1.2.1,
        fun hh => (h2.2.2 hh).trans (h1.2.2 hh)⟩
termination_by structural cs

end

/-! ### C6: unregistering a static module -/

/-- `resetStore` (always called with `hot = true` from
`unregisterModule`) rebuilds the routing tables but leaves the module
tree and the state tree untouched. -/
theorem resetStore_hot_frame (s : VStore) :
    (resetStore s true).root = s.root ∧ (resetStore s true).stateData = s.stateData := by
  unfold resetStore
  exact ⟨(installModule_frame _ _ _ _).1, (installModule_frame _ _ _ _).2.2 rfl⟩

/-- C6 (amended): `unregisterModule` on a path whose module was present
at store-construction time (`runtime = false`) leaves the module tree
unchanged — the module stays registered, `hasModule` still answers
`true` — but the store is *not* unchanged: the state subtree at the
module's key is still deleted from the parent state object (and the
routing tables are rebuilt). -/
theorem unregisterModule_static (s : VStore) (path : List String) (k : String)
    (parent child : VModule)
    (hk : path.getLast? = some k)
    (hp : descend s.root path.dropLast = some parent)
    (hc : parent.getChild k = some child)
    (hr : child.runtime = false) :
    Store.hasModule (Store.unregisterModule s path) path = true
      ∧ (Store.unregisterModule s path).root = s.root
      ∧ (Store.unregisterModule s path).stateData
          = updateAtPath s.stateData path.dropLast (·.removeField k) := by
  have hmc : unregisterMC s.root path = (s.root, none) := by
    unfold unregisterMC
    simp [hp, hk, hc, hr]
  have hroot : (Store.unregisterModule s path).root = s.root := by
    simp only [Store.unregisterModule, hmc, hk]
    rw [(resetStore_hot_frame _).1]
    simp [withCommit]
  refine ⟨?_, hroot, ?_⟩
  · show isRegistered (Store.unregisterModule s path).root path = true
    rw [hroot]
    unfold isRegistered
    rw [hp, hk]
    simp [VModule.hasChild, hc]
  · simp only [Store.unregisterModule, hmc, hk]
    rw [(resetStore_hot_frame _).2]
    simp [withCommit]

/-- C6 witness for the amended claim: the static module `a` of
`cfgStatic`. -/
theorem unregisterModule_static_witness :
    (["a"] : List String).getLast? = some "a"
      ∧ (Store.hasModule (Store.unregisterModule (storeOf cfgStatic) ["a"]) ["a"] = true
          ∧ (Store.unregisterModule (storeOf cfgStatic) ["a"]).root = (storeOf cfgStatic).root
          ∧ (Store.unregisterModule (storeOf cfgStatic) ["a"]).stateData
              = updateAtPath (storeOf cfgStatic).stateData [] (·.removeField "a")) :=
  ⟨by decide,
   unregisterModule_static (storeOf cfgStatic) ["a"] "a"
     (buildModule cfgStatic false) (buildModule (.mk false (.leaf 7) [] [] [] []) false)
     (by decide) (by decide) (by decide) (by decide)⟩

/-- C6 counterexample to the claim as stated: after
`unregisterModule(['a'])` on the static module `a`, the module is
still registered, but the state subtree at key `a` is gone — the store
is not unchanged. -/
theorem unregisterModule_static_counterexample :
    Store.hasModule (Store.unregisterModule (storeOf cfgStatic) ["a"]) ["a"] = true
      ∧ (storeOf cfgStatic).stateData.getField "a" = some (.leaf 7)
      ∧ (Store.unregisterModule (storeOf cfgStatic) ["a"]).stateData.getField "a" = none
      ∧ (Store.unregisterModule (storeOf cfgStatic) ["a"]).stateData
          ≠ (storeOf cfgStatic).stateData := by
  decide

/-! ### C2: association-table and namespace groundwork -/

/-- Looking up a key other than the one updated is unchanged by a
property write. -/
theorem assocLookup_map_set_ne {α : Type} (l : List (String × α)) (k k' : String) (v : α)
    (h : k' ≠ k) :
    assocLookup (l.map (fun p => if p.1 = k then (k, v) else p)) k' = assocLookup l k' := by
  induction l with
  | nil => rfl
  | cons p rest ih =>
      by_cases hk : p.1 = k
      · simp [assocLookup, hk, Ne.symm h, ih]
      · simp [assocLookup, hk, ih]

/-- A property write over an existing key is found at that key. -/
theorem assocLookup_map_set_self {α : Type} (l : List (String × α)) (k : String) (v : α)
    (h : (assocLookup l k).isSome) :
    assocLookup (l.map (fun p => if p.1 = k then (k, v) else p)) k = some v := by
  induction l with
  | nil => simp [assocLookup] at h
  | cons p rest ih =>
      by_cases hk : p.1 = k
      · simp [assocLookup, hk]
      · simp [assocLookup, hk] at h ⊢
        exact ih h

/-- Appending entries on the right does not change a key that misses
the left part only if the key also misses the appended part; for a key
present on the left the lookup is unchanged. -/
theorem assocLookup_append_left {α : Type} (l l' : List (String × α)) (k : String) (v : α)
    (h : assocLookup l k = some v) : assocLookup (l ++ l') k = some v := by
  induction l with
  | nil => simp [assocLookup] at h
  | cons p rest ih =>
      by_cases hk : p.1 = k
      · simpa [assocLookup, hk] using h
      · simp [assocLookup, hk] at h ⊢
        exact ih h

/-- A key absent on the left is found in the appended singleton. -/
theorem assocLookup_append_miss {α : Type} (l : List (String × α)) (k : String) (v : α)
    (h : assocLookup l k = none) : assocLookup (l ++ [(k, v)]) k = some v := by
  induction l with
  | nil => simp [assocLookup]
  | cons p rest ih =>
      by_cases hk : p.1 = k
      · simp [assocLookup, hk] at h
      · simp [assocLookup, hk] at h ⊢
        exact ih h

/-- A key other than the appended one looks up as before. -/
theorem assocLookup_append_ne {α : Type} (l : List (String × α)) (k k' : String) (v : α)
    (h : k' ≠ k) : assocLookup (l ++ [(k, v)]) k' = assocLookup l k' := by
  induction l with
  | nil => simp [assocLookup, Ne.symm h]
  | cons p rest ih =>
      by_cases hk : p.1 = k'
      · simp [assocLookup, hk]
      · simp [assocLookup, hk, ih]

/-- `assocSet` stores the value under its key. -/
theorem assocLookup_assocSet_self {α : Type} (l : List (String × α)) (k : String) (v : α) :
    assocLookup (assocSet l k v) k = some v := by
  unfold assocSet
  split
  · rename_i h
    exact assocLookup_map_set_self l k v h
  · rename_i h
    exact assocLookup_append_miss l k v (Option.not_isSome_iff_eq_none.mp (by simpa using h))

/-- `assocSet` leaves other keys alone. -/
theorem assocLookup_assocSet_ne {α : Type} (l : List (String × α)) (k k' : String) (v : α)
    (h : k' ≠ k) : assocLookup (assocSet l k v) k' = assocLookup l k' := by
  unfold assocSet
  split
  · exact assocLookup_map_set_ne l k k' v h
  · exact assocLookup_append_ne l k k' v h

/-- A successful lookup is list membership of the pair. -/
theorem assocLookup_some_mem {α : Type} (l : List (String × α)) (k : String) (v : α)
    (h : assocLookup l k = some v) : (k, v) ∈ l := by
  induction l with
  | nil => simp [assocLookup] at h
  | cons p rest ih =>
      by_cases hk : p.1 = k
      · simp [assocLookup, hk] at h
        cases p
        simp_all
      · simp [assocLookup, hk] at h
        exact List.mem_cons_of_mem _ (ih h)

/-- Path lookup distributes over path concatenation. -/
theorem descend_append (m : VModule) (p q : List String) :
    descend m (p ++ q) = (descend m p).bind (fun m' => descend m' q) := by
  induction p generalizing m with
  | nil => simp [descend]
  | cons k ks ih =>
      cases hc : m.getChild k with
      | none => simp [descend, hc]
      | some c => simp [descend, hc, ih]

/-- The accumulator of the namespace walk factors out: `getNamespaceGo`
computes the accumulator followed by the spec-style concatenation. -/
theorem getNamespaceGo_spec (p : List String) :
    ∀ (m : VModule) (ns : String), getNamespaceGo m p ns = ns ++ specNamespace m p := by
  induction p with
  | nil => intro m ns; simp [getNamespaceGo, specNamespace]
  | cons k ks ih =>
      intro m ns
      cases hc : m.getChild k with
      | none => simp [getNamespaceGo, specNamespace, hc]
      | some c => simp [getNamespaceGo, specNamespace, hc, ih, String.append_assoc]

/-- `getNamespace` is exactly the spec's namespace: the concatenation of
`key + '/'` over the namespaced modules along the path. -/
theorem getNamespace_spec (root : VModule) (p : List String) :
    getNamespace root p = specNamespace root p := by
  have h := getNamespaceGo_spec p root ""
  simpa [getNamespace] using h

/-- Namespaces compose along path concatenation (for resolvable
prefixes). -/
theorem getNamespace_append (root : VModule) (p q : List String) (m : VModule)
    (h : descend root p = some m) :
    getNamespace root (p ++ q) = getNamespace root p ++ getNamespace m q := by
  rw [getNamespace_spec, getNamespace_spec, getNamespace_spec]
  induction p generalizing root with
  | nil =>
      cases h
      simp [specNamespace, String.empty_append]
  | cons k ks ih =>
      simp only [descend] at h
      cases hc : root.getChild k with
      | none => rw [hc] at h; cases h
      | some c =>
          rw [hc] at h
          simp only [Option.some_bind] at h
          simp [specNamespace, hc, ih c h, String.append_assoc]

/-! ### C2: registration lemmas -/

/-- A fold preserves any property each step preserves. -/
theorem foldl_pres {β : Type} (f : VStore → β → VStore) (P : VStore → Prop)
    (hf : ∀ s b, P s → P (f s b)) :
    ∀ (l : List β) (s : VStore), P s → P (l.foldl f s) := by
  intro l
  induction l with
  | nil => exact fun s h => h
  | cons b rest ih => exact fun s h => ih _ (hf s b h)

/-- Appending a handler to a table entry registers it. -/
theorem handlerRegistered_append_self (tbl : List (String × List HandlerRef))
    (t : String) (ref : HandlerRef) :
    handlerRegistered (assocSet tbl t ((assocLookup tbl t).getD [] ++ [ref])) t ref :=
  ⟨(assocLookup tbl t).getD [] ++ [ref], assocLookup_assocSet_self _ _ _, by simp⟩

/-- Appending a handler to some entry keeps every registered handler
registered. -/
theorem handlerRegistered_append_mono (tbl : List (String × List HandlerRef))
    (t : String) (r : HandlerRef) (key : String) (ref : HandlerRef)
    (h : handlerRegistered tbl key ref) :
    handlerRegistered (assocSet tbl t ((assocLookup tbl t).getD [] ++ [r])) key ref := by
  obtain ⟨entry, hl, hm⟩ := h
  by_cases hk : key = t
  · subst hk
    exact ⟨entry ++ [r], by rw [assocLookup_assocSet_self, hl]; simp,
      List.mem_append_left _ hm⟩
  · exact ⟨entry, by rw [assocLookup_assocSet_ne _ _ _ _ hk]; exact hl, hm⟩

/-- `registerMutation` registers the handler under the given type. -/
theorem registerMutation_registers (s : VStore) (t : String) (ref : HandlerRef) :
    handlerRegistered (registerMutation s t ref).mutTable t ref :=
  handlerRegistered_append_self s.mutTable t ref

/-- `registerMutation` keeps existing registrations. -/
theorem registerMutation_mono (s : VStore) (t : String) (r : HandlerRef)
    (key : String) (ref : HandlerRef) (h : handlerRegistered s.mutTable key ref) :
    handlerRegistered (registerMutation s t r).mutTable key ref :=
  handlerRegistered_append_mono s.mutTable t r key ref h

/-- `registerAction` registers the handler under the given type. -/
theorem registerAction_registers (s : VStore) (t : String) (ref : HandlerRef) :
    handlerRegistered (registerAction s t ref).actTable t ref :=
  handlerRegistered_append_self s.actTable t ref

/-- `registerAction` keeps existing registrations. -/
theorem registerAction_mono (s : VStore) (t : String) (r : HandlerRef)
    (key : String) (ref : HandlerRef) (h : handlerRegistered s.actTable key ref) :
    handlerRegistered (registerAction s t r).actTable key ref :=
  handlerRegistered_append_mono s.actTable t r key ref h

/-- `registerGetter` never overwrites or removes an assigned getter. -/
theorem registerGetter_mono (s : VStore) (t : String) (r : HandlerRef)
    (key : String) (v : HandlerRef) (h : assocLookup s.getTable key = some v) :
    assocLookup (registerGetter s t r).getTable key = some v := by
  unfold registerGetter
  split
  · exact h
  · rename_i hn
    by_cases hk : key = t
    · subst hk
      rw [h] at hn
      simp at hn
    · rw [assocLookup_append_ne _ _ _ _ hk]
      exact h

/-- After `registerGetter`, the slot for the given type is occupied
(either it already was, or the getter was just stored). -/
theorem registerGetter_occupies (s : VStore) (t : String) (r : HandlerRef) :
    (assocLookup (registerGetter s t r).getTable t).isSome := by
  unfold registerGetter
  split
  · assumption
  · rename_i hn
    rw [assocLookup_append_miss _ _ _ (Option.not_isSome_iff_eq_none.mp (by simpa using hn))]
    rfl

/-- `isSome` version of `registerGetter_mono`. -/
theorem registerGetter_mono_isSome (s : VStore) (t : String) (r : HandlerRef) (key : String)
    (h : (assocLookup s.getTable key).isSome) :
    (assocLookup (registerGetter s t r).getTable key).isSome := by
  obtain ⟨v, hv⟩ := Option.isSome_iff_exists.mp h
  rw [registerGetter_mono s t r key v hv]
  rfl

mutual

/-- Installing a module (and its subtree) keeps every existing
registration: mutation and action handlers stay in their entries, and
assigned getter slots keep their getters. -/
theorem installModule_preserves (s : VStore) (path : List String) (m : VModule) (hot : Bool) :
    (∀ key ref, handlerRegistered s.mutTable key ref →
        handlerRegistered (installModule s path m hot).mutTable key ref)
      ∧ (∀ key ref, handlerRegistered s.actTable key ref →
        handlerRegistered (installModule s path m hot).actTable key ref)
      ∧ (∀ key v, assocLookup s.getTable key = some v →
        assocLookup (installModule s path m hot).getTable key = some v) := by
  cases m with
  | mk r n st ms as gs cs =>
      simp only [installModule]
      refine ⟨fun key ref h => ?_, fun key ref h => ?_, fun key v h => ?_⟩
      · refine (installChildren_preserves _ path cs hot).1 key ref ?_
        refine foldl_pres _ (fun s' => handlerRegistered s'.mutTable key ref)
          (fun s' b h' => by dsimp only; rw [(registerGetter_frame s' _ _).2.2.2.1]; exact h') gs _ ?_
        refine foldl_pres _ (fun s' => handlerRegistered s'.mutTable key ref)
          (fun s' b h' => by dsimp only; rw [(registerAction_frame s' _ _).2.2.2.1]; exact h') as _ ?_
        refine foldl_pres _ (fun s' => handlerRegistered s'.mutTable key ref)
          (fun s' b h' => registerMutation_mono s' _ _ key ref h') ms _ ?_
        dsimp only
        rw [(installStateStep_frame _ _ _ _).2.2.1, (installNsMapStep_frame _ _ _ _).2.2.2.1]
        exact h
      · refine (installChildren_preserves _ path cs hot).2.1 key ref ?_
        refine foldl_pres _ (fun s' => handlerRegistered s'.actTable key ref)
          (fun s' b h' => by dsimp only; rw [(registerGetter_frame s' _ _).2.2.2.2]; exact h') gs _ ?_
        refine foldl_pres _ (fun s' => handlerRegistered s'.actTable key ref)
          (fun s' b h' => registerAction_mono s' _ _ key ref h') as _ ?_
        refine foldl_pres _ (fun s' => handlerRegistered s'.actTable key ref)
          (fun s' b h' => by dsimp only; rw [(registerMutation_frame s' _ _).2.2.2.1]; exact h') ms _ ?_
        dsimp only
        rw [(installStateStep_frame _ _ _ _).2.2.2.1, (installNsMapStep_frame _ _ _ _).2.2.2.2.1]
        exact h
      · refine (installChildren_preserves _ path cs hot).2.2 key v ?_
        refine foldl_pres _ (fun s' => assocLookup s'.getTable key = some v)
          (fun s' b h' => registerGetter_mono s' _ _ key v h') gs _ ?_
        refine foldl_pres _ (fun s' => assocLookup s'.getTable key = some v)
          (fun s' b h' => by dsimp only; rw [(registerAction_frame s' _ _).2.2.2.2]; exact h') as _ ?_
        refine foldl_pres _ (fun s' => assocLookup s'.getTable key = some v)
          (fun s' b h' => by dsimp only; rw [(registerMutation_frame s' _ _).2.2.2.2]; exact h') ms _ ?_
        dsimp only
        rw [(installStateStep_frame _ _ _ _).2.2.2.2.1, (installNsMapStep_frame _ _ _ _).2.2.2.2.2]
        exact h
termination_by structural m

/-- Installing a list of children keeps every existing registration. -/
theorem installChildren_preserves (s : VStore) (path : List String)
    (cs : List (String × VModule)) (hot : Bool) :
    (∀ key ref, handlerRegistered s.mutTable key ref →
        handlerRegistered (installChildren s path cs hot).mutTable key ref)
      ∧ (∀ key ref, handlerRegistered s.actTable key ref →
        handlerRegistered (installChildren s path cs hot).actTable key ref)
      ∧ (∀ key v, assocLookup s.getTable key = some v →
        assocLookup (installChildren s path cs hot).getTable key = some v) := by
  match cs with
  | [] => exact ⟨fun _ _ h => h, fun _ _ h => h, fun _ _ h => h⟩
  | (k, c) :: rest =>
      have h1 := installModule_preserves s (path ++ [k]) c hot
      have h2 := installChildren_preserves (installModule s (path ++ [k]) c hot) path rest hot
      simp only [installChildren]
      exact ⟨fun key ref h => h2.1 key ref (h1.1 key ref h),
        fun key ref h => h2.2.1 key ref (h1.2.1 key ref h),
        fun key v h => h2.2.2 key v (h1.2.2 key v h)⟩
termination_by structural cs

end

/-- `isSome` corollary of `installChildren_preserves`. -/
theorem installChildren_preserves_isSome (s : VStore) (path : List String)
    (cs : List (String × VModule)) (hot : Bool) (key : String)
    (h : (assocLookup s.getTable key).isSome) :
    (assocLookup (installChildren s path cs hot).getTable key).isSome := by
  obtain ⟨v, hv⟩ := Option.isSome_iff_exists.mp h
  rw [(installChildren_preserves s path cs hot).2.2 key v hv]
  rfl

/-- The mutation-registration fold registers every declared key. -/
theorem fold_registerMutation_self (ns : String) (path : List String) (ms : List String) :
    ∀ (s : VStore) (k : String), k ∈ ms →
      handlerRegistered
        ((ms.foldl (fun s k => registerMutation s (ns ++ k) (path, k)) s)).mutTable
        (ns ++ k) (path, k) := by
  induction ms with
  | nil => intro s k hk; cases hk
  | cons b rest ih =>
      intro s k hk
      rw [List.foldl_cons]
      rcases List.mem_cons.mp hk with h | h
      · subst h
        exact foldl_pres _ (fun s' => handlerRegistered s'.mutTable (ns ++ k) (path, k))
          (fun s' b' h' => registerMutation_mono s' _ _ _ _ h') rest _
          (registerMutation_registers s _ _)
      · exact ih _ k h

/-- The action-registration fold registers every declared action under
`root ? key : namespace + key`. -/
theorem fold_registerAction_self (ns : String) (path : List String)
    (as : List (String × ActionDecl)) :
    ∀ (s : VStore) (ka : String × ActionDecl), ka ∈ as →
      handlerRegistered
        ((as.foldl (fun s ka =>
            registerAction s (if ka.2.isRoot then ka.1 else ns ++ ka.1) (path, ka.1)) s)).actTable
        (if ka.2.isRoot then ka.1 else ns ++ ka.1) (path, ka.1) := by
  induction as with
  | nil => intro s ka hk; cases hk
  | cons b rest ih =>
      intro s ka hk
      rw [List.foldl_cons]
      rcases List.mem_cons.mp hk with h | h
      · subst h
        exact foldl_pres _
          (fun s' => handlerRegistered s'.actTable
            (if ka.2.isRoot then ka.1 else ns ++ ka.1) (path, ka.1))
          (fun s' b' h' => registerAction_mono s' _ _ _ _ h') rest _
          (registerAction_registers s _ _)
      · exact ih _ ka h

/-- The getter-registration fold leaves every declared key's slot
occupied. -/
theorem fold_registerGetter_self (ns : String) (path : List String) (gs : List String) :
    ∀ (s : VStore) (g : String), g ∈ gs →
      (assocLookup
        ((gs.foldl (fun s k => registerGetter s (ns ++ k) (path, k)) s)).getTable
        (ns ++ g)).isSome := by
  induction gs with
  | nil => intro s g hg; cases hg
  | cons b rest ih =>
      intro s g hg
      rw [List.foldl_cons]
      rcases List.mem_cons.mp hg with h | h
      · subst h
        exact foldl_pres _ (fun s' => (assocLookup s'.getTable (ns ++ g)).isSome)
          (fun s' b' h' => registerGetter_mono_isSome s' _ _ _ h') rest _
          (registerGetter_occupies s _ _)
      · exact ih _ g h

mutual

/-- Installing module `m` at `path` (with `R` the module tree the
namespaces are computed from) registers, for every descendant module
at relative path `q`, every declared mutation under
`getNamespace (path ++ q) ++ key`, every declared action under its
bare key when it opts out with `root: true` and under
`getNamespace (path ++ q) ++ key` otherwise, and leaves the getter
slot `getNamespace (path ++ q) ++ key` occupied. -/
theorem installModule_registers (s : VStore) (R : VModule) (path : List String)
    (m : VModule) (hot : Bool) (hR : s.root = R) (hroot : descend R path = some m) :
    ∀ (q : List String) (m' : VModule), descend m q = some m' →
      (∀ k, k ∈ m'.mutations →
          handlerRegistered (installModule s path m hot).mutTable
            (getNamespace R (path ++ q) ++ k) (path ++ q, k))
      ∧ (∀ ka : String × ActionDecl, ka ∈ m'.actions →
          handlerRegistered (installModule s path m hot).actTable
            (if ka.2.isRoot then ka.1 else getNamespace R (path ++ q) ++ ka.1)
            (path ++ q, ka.1))
      ∧ (∀ g, g ∈ m'.getters →
          (assocLookup (installModule s path m hot).getTable
            (getNamespace R (path ++ q) ++ g)).isSome) := by
  cases m with
  | mk r n st ms as gs cs =>
      intro q m' hq
      cases q with
      | nil =>
          simp only [descend] at hq
          cases hq
          rw [List.append_nil]
          simp only [installModule]
          refine ⟨fun k hk => ?_, fun ka hka => ?_, fun g hg => ?_⟩
          · simp only [VModule.mutations] at hk
            refine (installChildren_preserves _ path cs hot).1 _ _ ?_
            refine foldl_pres _ (fun s' => handlerRegistered s'.mutTable
                (getNamespace R path ++ k) (path, k))
              (fun s' b h' => by dsimp only; rw [(registerGetter_frame s' _ _).2.2.2.1]; exact h')
              gs _ ?_
            refine foldl_pres _ (fun s' => handlerRegistered s'.mutTable
                (getNamespace R path ++ k) (path, k))
              (fun s' b h' => by dsimp only; rw [(registerAction_frame s' _ _).2.2.2.1]; exact h')
              as _ ?_
            rw [← hR]
            exact fold_registerMutation_self _ path ms _ k hk
          · simp only [VModule.actions] at hka
            refine (installChildren_preserves _ path cs hot).2.1 _ _ ?_
            refine foldl_pres _ (fun s' => handlerRegistered s'.actTable
                (if ka.2.isRoot then ka.1 else getNamespace R path ++ ka.1) (path, ka.1))
              (fun s' b h' => by dsimp only; rw [(registerGetter_frame s' _ _).2.2.2.2]; exact h')
              gs _ ?_
            rw [← hR]
            exact fold_registerAction_self _ path as _ ka hka
          · simp only [VModule.getters] at hg
            rw [← hR]
            refine installChildren_preserves_isSome _ path cs hot _ ?_
            exact fold_registerGetter_self _ path gs _ g hg
      | cons ck q' =>
          simp only [descend] at hq
          cases hc : VModule.getChild (VModule.mk r n st ms as gs cs) ck with
          | none => rw [hc] at hq; cases hq
          | some c =>
              rw [hc] at hq
              simp only [Option.some_bind] at hq
              have hmem : (ck, c) ∈ cs := by
                have hmm := assocLookup_some_mem _ _ _
                  (by simpa [VModule.getChild, VModule.children] using hc)
                exact hmm
              have hdesc : descend R (path ++ [ck]) = some c := by
                rw [descend_append, hroot]
                simp [descend, hc]
              rw [show path ++ ck :: q' = (path ++ [ck]) ++ q' by simp]
              simp only [installModule]
              refine ⟨fun k hk => ?_, fun ka hka => ?_, fun g hg => ?_⟩
              · refine (installChildren_registers _ R path cs hot ck c ?_ hmem hdesc
                  q' m' hq).1 k hk
                rw [foldl_proj VStore.root _ (fun s b => (registerGetter_frame s _ _).1),
                  foldl_proj VStore.root _ (fun s b => (registerAction_frame s _ _).1),
                  foldl_proj VStore.root _ (fun s b => (registerMutation_frame s _ _).1),
                  (installStateStep_frame _ _ _ _).1, (installNsMapStep_frame _ _ _ _).1, hR]
              · refine (installChildren_registers _ R path cs hot ck c ?_ hmem hdesc
                  q' m' hq).2.1 ka hka
                rw [foldl_proj VStore.root _ (fun s b => (registerGetter_frame s _ _).1),
                  foldl_proj VStore.root _ (fun s b => (registerAction_frame s _ _).1),
                  foldl_proj VStore.root _ (fun s b => (registerMutation_frame s _ _).1),
                  (installStateStep_frame _ _ _ _).1, (installNsMapStep_frame _ _ _ _).1, hR]
              · refine (installChildren_registers _ R path cs hot ck c ?_ hmem hdesc
                  q' m' hq).2.2 g hg
                rw [foldl_proj VStore.root _ (fun s b => (registerGetter_frame s _ _).1),
                  foldl_proj VStore.root _ (fun s b => (registerAction_frame s _ _).1),
                  foldl_proj VStore.root _ (fun s b => (registerMutation_frame s _ _).1),
                  (installStateStep_frame _ _ _ _).1, (installNsMapStep_frame _ _ _ _).1, hR]
termination_by structural m

/-- Installing a children list registers, for any child `(ck, c)`
present in the list and every module at relative path `q` below it,
all declared keys with the namespaced naming scheme. -/
theorem installChildren_registers (s : VStore) (R : VModule) (path : List String)
    (cs : List (String × VModule)) (hot : Bool) (ck : String) (c : VModule)
    (hR : s.root = R) (hmem : (ck, c) ∈ cs)
    (hdesc : descend R (path ++ [ck]) = some c) :
    ∀ (q : List String) (m' : VModule), descend c q = some m' →
      (∀ k, k ∈ m'.mutations →
          handlerRegistered (installChildren s path cs hot).mutTable
            (getNamespace R ((path ++ [ck]) ++ q) ++ k) ((path ++ [ck]) ++ q, k))
      ∧ (∀ ka : String × ActionDecl, ka ∈ m'.actions →
          handlerRegistered (installChildren s path cs hot).actTable
            (if ka.2.isRoot then ka.1 else getNamespace R ((path ++ [ck]) ++ q) ++ ka.1)
            ((path ++ [ck]) ++ q, ka.1))
      ∧ (∀ g, g ∈ m'.getters →
          (assocLookup (installChildren s path cs hot).getTable
            (getNamespace R ((path ++ [ck]) ++ q) ++ g)).isSome) := by
  match cs with
  | [] => exact absurd hmem (List.not_mem_nil _)
  | (ck0, c0) :: rest =>
      intro q m' hq
      simp only [installChildren]
      rcases List.mem_cons.mp hmem with heq | hmem0
      · injection heq with h1 h2
        rw [h1, h2] at hdesc
        rw [h2] at hq
        rw [h1]
        have hhead := installModule_registers s R (path ++ [ck0]) c0 hot hR hdesc q m' hq
        refine ⟨fun k hk => ?_, fun ka hka => ?_, fun g hg => ?_⟩
        · exact (installChildren_preserves _ path rest hot).1 _ _ (hhead.1 k hk)
        · exact (installChildren_preserves _ path rest hot).2.1 _ _ (hhead.2.1 ka hka)
        · exact installChildren_preserves_isSome _ path rest hot _ (hhead.2.2 g hg)
      · have hR0 : (installModule s (path ++ [ck0]) c0 hot).root = R := by
          rw [(installModule_frame _ _ _ _).1, hR]
        exact installChildren_registers (installModule s (path ++ [ck0]) c0 hot) R path rest
          hot ck c hR0 hmem0 hdesc q m' hq
termination_by structural cs

end

/-- C2: in a store built from a root config, for every module path and
every declared key, the key is registered in the global routing tables
as `N + K` where `N = getNamespace path` — and `getNamespace` is
exactly the concatenation of `key + '/'` over the modules along the
path flagged `namespaced` — except that an action declared with
`root: true` is registered under its bare key `K` regardless of
namespace.  (For getters the slot named `N + K` is occupied; under
duplicate keys the first registration wins, see the duplicate-getter
results.) -/
theorem routing_table_keys (options : RawModule) (path : List String) (m' : VModule)
    (hdesc : descend (buildModule options false) path = some m') :
    (∀ k, k ∈ m'.mutations →
        handlerRegistered (storeOf options).mutTable
          (getNamespace (buildModule options false) path ++ k) (path, k))
      ∧ (∀ ka : String × ActionDecl, ka ∈ m'.actions →
        handlerRegistered (storeOf options).actTable
          (if ka.2.isRoot then ka.1
            else getNamespace (buildModule options false) path ++ ka.1)
          (path, ka.1))
      ∧ (∀ g, g ∈ m'.getters →
        (assocLookup (storeOf options).getTable
          (getNamespace (buildModule options false) path ++ g)).isSome)
      ∧ getNamespace (buildModule options false) path
          = specNamespace (buildModule options false) path := by
  simp only [storeOf]
  have h := installModule_registers
    { root := buildModule options false, stateData := (buildModule options false).state,
      committing := false, mutTable := [], actTable := [], getTable := [], nsMap := [],
      subscribers := [], actionSubscribers := [], log := [], nextId := 0 }
    (buildModule options false) [] (buildModule options false) false rfl rfl path m' hdesc
  rw [List.nil_append] at h
  exact ⟨h.1, h.2.1, h.2.2, getNamespace_spec _ _⟩

/-- C2 witness: in `cfgNs`, the namespaced module `a` has its mutation
at `a/m1`, its plain action at `a/na`, its `root: true` action at the
bare key `ra`, and its getter slot `a/g1` occupied. -/
theorem routing_table_keys_witness :
    handlerRegistered (storeOf cfgNs).mutTable
        (getNamespace (buildModule cfgNs false) ["a"] ++ "m1") (["a"], "m1")
      ∧ handlerRegistered (storeOf cfgNs).actTable
          (getNamespace (buildModule cfgNs false) ["a"] ++ "na") (["a"], "na")
      ∧ handlerRegistered (storeOf cfgNs).actTable "ra" (["a"], "ra")
      ∧ (assocLookup (storeOf cfgNs).getTable
          (getNamespace (buildModule cfgNs false) ["a"] ++ "g1")).isSome
      ∧ getNamespace (buildModule cfgNs false) ["a"] = "a/" := by
  have h := routing_table_keys cfgNs ["a"] (buildModule rawA false) (by decide)
  exact ⟨h.1 "m1" (by decide), h.2.1 ("na", .fnDecl) (List.mem_cons_self _ _),
    h.2.1 ("ra", .objDecl true) (List.mem_cons_of_mem _ (List.mem_cons_self _ _)),
    h.2.2.1 "g1" (by decide), by decide⟩
